import Mathlib

/-!
Verification of the nested-editor synchronization component of
`src/example/liquid/index.js` (a ProseMirror "liquid" inline node view).

Shallow embedding choices:
* The liquid node's content is `text*`, so an inner document is a flat list
  of content units (`List α`); a unit stands for one character together with
  its marks, and two units compare equal exactly when the framework's
  unit-level comparison does.
* The outer document is a flat token list in ProseMirror's linear coordinate
  space: block open/close tokens, the liquid node's own open/close boundary
  tokens, and text tokens.  The liquid node at outer position `pos` occupies
  the token range `[pos, pos + nodeSize)`.
* Steps are replace steps `(from, to, slice)`; applying one is fallible
  (the framework throws on out-of-range steps), modelled with `Option`.
* Framework operations used by the source (`findDiffStart`, `findDiffEnd`,
  `StepMap.offset` remapping, `applyTransaction`, transaction building) are
  modelled from their documented semantics; the liquid view's own methods
  (`dispatchInner`, `update`, `maybeEscape`, `maybeRemove`, `arrowHandler`,
  `isNearInlineBlock`) are translated line by line from the source.
-/

namespace Liquid

/-- Node markup: type name plus attributes.  `sameMarkup` in the framework
compares exactly these. -/
structure Markup where
  typeName : String
  attrs : List (String × String)
deriving DecidableEq, Repr

/-- A document node as the liquid view sees it: markup plus flat text
content.  (The liquid node's content spec is `text*`.) -/
structure PMNode (α : Type) where
  markup : Markup
  content : List α
deriving DecidableEq, Repr

/-- `node.sameMarkup(other)`: same type and attributes. -/
def PMNode.sameMarkup {α : Type} [DecidableEq α] (n m : PMNode α) : Bool :=
  n.markup = m.markup

/-- `node.nodeSize`: a non-leaf node spans its content plus two boundary
units. -/
def PMNode.nodeSize {α : Type} (n : PMNode α) : Nat :=
  n.content.length + 2

/-- `node.slice(from, to)`: the content units in `[from, to)`. -/
def PMNode.pieceOf {α : Type} (n : PMNode α) (f t : Nat) : List α :=
  (n.content.drop f).take (t - f)

/-- Length of the longest common prefix of two lists. -/
def lcpLen {α : Type} [DecidableEq α] : List α → List α → Nat
  | a :: as, b :: bs => if a = b then lcpLen as bs + 1 else 0
  | _, _ => 0

/-- Length of the longest common suffix of two lists. -/
def lcsLen {α : Type} [DecidableEq α] (as bs : List α) : Nat :=
  lcpLen as.reverse bs.reverse

/-- `Fragment.findDiffStart`: position of the first difference between two
content sequences, `none` when they are equal. -/
def findDiffStart {α : Type} [DecidableEq α] (as bs : List α) : Option Nat :=
  if as = bs then none else some (lcpLen as bs)

/-- `Fragment.findDiffEnd`: scanning backward, the pair of positions (one
per side) after which the two sequences agree; `none` when equal. -/
def findDiffEnd {α : Type} [DecidableEq α] (as bs : List α) : Option (Nat × Nat) :=
  if as = bs then none
  else some (as.length - lcsLen as bs, bs.length - lcsLen as bs)

/-- Outer-document tokens: block boundaries, the liquid node's own
boundaries, and text units. -/
inductive Tok (α : Type) where
  | bOpen : Tok α
  | bClose : Tok α
  | nOpen : Tok α
  | nClose : Tok α
  | txt (a : α) : Tok α
deriving DecidableEq, Repr

/-- A replace step over documents with element type `β`. -/
structure Step (β : Type) where
  sFrom : Nat
  sTo : Nat
  slice : List β
deriving DecidableEq, Repr

/-- Apply a replace step; fails (the framework throws) when the range is
not inside the document. -/
def applyStep {β : Type} (doc : List β) (st : Step β) : Option (List β) :=
  if st.sFrom ≤ st.sTo ∧ st.sTo ≤ doc.length then
    some (doc.take st.sFrom ++ st.slice ++ doc.drop st.sTo)
  else none

/-- Apply a list of steps in order, as a transaction does. -/
def applySteps {β : Type} (doc : List β) : List (Step β) → Option (List β)
  | [] => some doc
  | st :: rest => (applyStep doc st).bind (fun d => applySteps d rest)

/-- `step.map(StepMap.offset k)` for an inner step replayed in outer
coordinates: shift both positions by `k`; the slice's units become outer
text tokens. -/
def Step.mapOffset {α : Type} (st : Step α) (k : Nat) : Step (Tok α) :=
  ⟨st.sFrom + k, st.sTo + k, st.slice.map Tok.txt⟩

/-- An inner transaction: its steps, plus the `fromOutside` meta tag. -/
structure Tr (α : Type) where
  steps : List (Step α)
  fromOutside : Bool
deriving DecidableEq, Repr

/-- A text selection, kept as anchor/head positions. -/
structure Sel where
  anchor : Nat
  head : Nat
deriving DecidableEq, Repr

/-- `selection.from = min(anchor, head)`. -/
def Sel.selFrom (s : Sel) : Nat := min s.anchor s.head

/-- `selection.to = max(anchor, head)`. -/
def Sel.selTo (s : Sel) : Nat := max s.anchor s.head

/-- `selection.empty`: `from == to`. -/
def Sel.isEmpty (s : Sel) : Bool := s.anchor = s.head

/-- The whole state the `LiquidView` controller touches: the bound node,
the inner editor's document and selection, the node's outer position
(`getPos()`), and the outer editor's document, selection and focus. -/
structure Sys (α : Type) where
  node : PMNode α
  innerDoc : List α
  innerSel : Sel
  pos : Nat
  outerDoc : List (Tok α)
  outerSel : Sel
  outerFocused : Bool
deriving DecidableEq, Repr

/-- `this.length = this.node.nodeSize - 2`. -/
def Sys.length {α : Type} (sys : Sys α) : Nat :=
  sys.node.nodeSize - 2

/--
`dispatchInner(tr)`: apply the transaction to the inner state (the inner
keymap has no transaction-appending plugins, so `applyTransaction`'s
`transactions` list is `[tr]`), update the inner view; then, unless the
transaction carries the `fromOutside` meta tag, remap every step through
`StepMap.offset(getPos() + 1)`, append them in order to one outer
transaction, and dispatch it when `outerTr.docChanged` — which in the
framework is the flag `steps.length > 0`.  Returns the new state and, when
the outer dispatch happened, the dispatched outer steps (`none` = the
outer `dispatch` was not invoked); `none` overall models a thrown step
application.
-/
def dispatchInner {α : Type} (sys : Sys α) (tr : Tr α) :
    Option (Sys α × Option (List (Step (Tok α)))) := do
  let newInner ← applySteps sys.innerDoc tr.steps
  let sys1 := { sys with innerDoc := newInner }
  if tr.fromOutside then
    return (sys1, none)
  else
    let outerSteps := tr.steps.map (fun st => st.mapOffset (sys.pos + 1))
    let newOuter ← applySteps sys.outerDoc outerSteps
    if outerSteps.isEmpty then
      return (sys1, none)
    else
      return ({ sys1 with outerDoc := newOuter }, some outerSteps)

/-- `tr.replace(from, to, slice)` produces one replace step, except that the
framework's `replaceStep` returns null — no step — for the trivial empty
replace at a single position. -/
def trReplace {α : Type} [DecidableEq α] (f t : Nat) (slice : List α) : List (Step α) :=
  if f = t ∧ slice = [] then [] else [⟨f, t, slice⟩]

/-- The overlap correction of `update`: `overlap = start - min(endA, endB)`;
when it is positive, widen both end offsets by it. -/
def widenEnds (start endA endB : Nat) : Nat × Nat :=
  if min endA endB < start then
    (endA + (start - min endA endB), endB + (start - min endA endB))
  else (endA, endB)

/--
`update(node)`: refuse (return `false`) when the markup differs; otherwise
rebind `this.node`, diff the new node's content against the inner document
(`findDiffStart` / `findDiffEnd`), widen the end offsets when the scans
overlap, and dispatch an inner replace transaction tagged `fromOutside`.
`none` models a thrown exception (null destructuring or a failing step).
-/
def update {α : Type} [DecidableEq α] (sys : Sys α) (n : PMNode α) :
    Option (Bool × Sys α) :=
  if ¬ (n.sameMarkup sys.node) then some (false, sys)
  else
    match findDiffStart n.content sys.innerDoc with
    | none => some (true, { sys with node := n })
    | some start =>
      match findDiffEnd n.content sys.innerDoc with
      | none => none
      | some (endA, endB) =>
        ((dispatchInner { sys with node := n }
            ⟨trReplace start (widenEnds start endA endB).2
              (n.pieceOf start (widenEnds start endA endB).1), true⟩).map
          (fun r => (true, r.1)))

/--
`maybeEscape(dir)`: with a collapsed inner selection on the matching edge,
move the outer selection to a collapsed cursor just outside the node and
focus the outer view; otherwise do nothing and report not handled.
-/
def maybeEscape {α : Type} (sys : Sys α) (dir : Int) : Bool × Sys α :=
  let isOnEdge :=
    if dir < 0 then sys.innerSel.selFrom = 0
    else sys.innerSel.selTo = sys.length
  if ¬ sys.innerSel.isEmpty ∨ ¬ isOnEdge then (false, sys)
  else
    let targetPos := sys.pos + (if dir < 0 then 0 else sys.node.nodeSize)
    (true, { sys with outerSel := ⟨targetPos, targetPos⟩, outerFocused := true })

/-- Record of the outer transaction dispatched by `maybeRemove`: the
selection it sets, the range it deletes, and its scroll-into-view flag. -/
structure OuterTrRec where
  selSet : Option (Nat × Nat)
  delRange : Option (Nat × Nat)
  scroll : Bool
deriving DecidableEq, Repr

/--
`maybeRemove()`: when `this.length` is 0, dispatch an outer transaction
that selects the node's whole range `[getPos(), getPos() + nodeSize)`,
deletes it, and scrolls into view; report handled.  Otherwise no action
(the source returns `undefined`, which the keymap treats as not handled).
The selection set at `(f, t)` is remapped through the delete of that very
range, leaving a collapsed outer cursor at `f`.
-/
def maybeRemove {α : Type} (sys : Sys α) :
    Bool × Sys α × Option OuterTrRec :=
  if sys.length = 0 then
    let f := sys.pos
    let t := sys.pos + sys.node.nodeSize
    (true,
     { sys with
        outerDoc := sys.outerDoc.take f ++ sys.outerDoc.drop t,
        outerSel := ⟨f, f⟩ },
     some ⟨some (f, t), some (f, t), true⟩)
  else (false, sys, none)

/-- The four arrow keys handled by the boundary-navigation keymap. -/
inductive ArrowDir where
  | left : ArrowDir
  | right : ArrowDir
  | up : ArrowDir
  | down : ArrowDir
deriving DecidableEq, Repr

/-- `dir == 'left' || dir == 'up' ? -1 : 1`. -/
def arrowSide (dir : ArrowDir) : Int :=
  if dir = ArrowDir.left ∨ dir = ArrowDir.up then -1 else 1

/-- What the boundary-navigation code observes about a resolved position's
neighbouring node. -/
structure NodeInfo where
  isText : Bool
  isInline : Bool
deriving DecidableEq, Repr

/-- `$head.nodeAfter`: the node starting at position `p`, seen through the
token list — a text token starts a text node, the liquid node's opening
boundary starts the (non-text, inline) liquid node, a block opening
boundary starts a non-inline block node, and otherwise there is no node
after. -/
def nodeAfter {α : Type} (doc : List (Tok α)) (p : Nat) : Option NodeInfo :=
  match doc.get? p with
  | some (Tok.txt _) => some ⟨true, true⟩
  | some Tok.nOpen => some ⟨false, true⟩
  | some Tok.bOpen => some ⟨false, false⟩
  | _ => none

/-- `$head.nodeBefore`: the node ending at position `p`. -/
def nodeBefore {α : Type} (doc : List (Tok α)) (p : Nat) : Option NodeInfo :=
  match p with
  | 0 => none
  | q + 1 =>
    match doc.get? q with
    | some (Tok.txt _) => some ⟨true, true⟩
    | some Tok.nClose => some ⟨false, true⟩
    | some Tok.bClose => some ⟨false, false⟩
    | _ => none

/-- The outer editor state as the arrow-key commands see it; `scrolled`
records a dispatched transaction's scroll-into-view flag. -/
structure OuterState (α : Type) where
  doc : List (Tok α)
  sel : Sel
  scrolled : Bool
deriving DecidableEq, Repr

/-- `isNearInlineBlock(state, side)`: the node adjacent to the selection
head in the given direction exists, is not text, and is inline. -/
def isNearInlineBlock {α : Type} (st : OuterState α) (side : Int) : Bool :=
  match (if side ≥ 0 then nodeAfter st.doc st.sel.head
         else nodeBefore st.doc st.sel.head) with
  | some info => !info.isText && info.isInline
  | none => false

/--
`arrowHandler(dir)`: when the outer selection is collapsed and an
atomic-inline candidate is adjacent in the movement direction, resolve a
new selection (`Selection.findFrom`, modelled as a parameter since it is
framework code) from one position further in that direction, set it with
scroll-into-view and report handled; otherwise report not handled.  The
overall `none` models the throw on `setSelection(null)` when `findFrom`
resolves nothing.
-/
def arrowHandler {α : Type}
    (findFrom : List (Tok α) → Int → Int → Option Sel)
    (dir : ArrowDir) (st : OuterState α) : Option (Bool × OuterState α) :=
  if st.sel.isEmpty ∧ isNearInlineBlock st (arrowSide dir) then
    match findFrom st.doc ((st.sel.head : Int) + arrowSide dir) (arrowSide dir) with
    | some s => some (true, { st with sel := s, scrolled := true })
    | none => none
  else some (false, st)

/-! ### Concrete instances used to exercise the theorems -/

/-- The liquid node's markup in the examples below. -/
def exM : Markup := ⟨"liquid", []⟩

/-- A controller state bound to a liquid node containing `aa`, sitting at
outer position 1 inside a one-paragraph outer document. -/
def exSys : Sys Char :=
  { node := ⟨exM, ['a', 'a']⟩
    innerDoc := ['a', 'a']
    innerSel := ⟨0, 0⟩
    pos := 1
    outerDoc := [Tok.bOpen, Tok.nOpen, Tok.txt 'a', Tok.txt 'a',
      Tok.nClose, Tok.bClose]
    outerSel := ⟨0, 0⟩
    outerFocused := false }

/-- A controller state whose liquid node has become empty. -/
def exSysEmpty : Sys Char :=
  { node := ⟨exM, []⟩
    innerDoc := []
    innerSel := ⟨0, 0⟩
    pos := 1
    outerDoc := [Tok.bOpen, Tok.nOpen, Tok.nClose, Tok.bClose]
    outerSel := ⟨0, 0⟩
    outerFocused := false }

/-- `exSys` with the inner caret collapsed at the end of the content. -/
def exSysEnd : Sys Char := { exSys with innerSel := ⟨2, 2⟩ }

/-- `exSys` with a non-empty inner selection spanning the whole content. -/
def exSysRange : Sys Char := { exSys with innerSel := ⟨0, 2⟩ }

/-- An inner transaction tagged as coming from outside. -/
def exTrOutside : Tr Char := ⟨[⟨0, 1, ['b']⟩], true⟩

/-- An untagged inner transaction replacing the whole inner content. -/
def exTrInner : Tr Char := ⟨[⟨0, 2, ['b']⟩], false⟩

/-- An untagged inner transaction whose single step replaces a character
with itself: a step that does not change the document. -/
def exTrId : Tr Char := ⟨[⟨0, 1, ['a']⟩], false⟩

/-- An outer editor state with a caret right before the liquid node. -/
def exOuter : OuterState Char :=
  ⟨[Tok.bOpen, Tok.nOpen, Tok.nClose, Tok.bClose], ⟨1, 1⟩, false⟩

/-- A selection-resolution function for exercising `arrowHandler`: collapse
at the target position. -/
def exFindFrom : List (Tok Char) → Int → Int → Option Sel :=
  fun _ target _ => some ⟨target.toNat, target.toNat⟩

/-! ### Longest-common-prefix and -suffix facts -/

theorem lcpLen_le_left {α : Type} [DecidableEq α] :
    ∀ (as bs : List α), lcpLen as bs ≤ as.length
  | [], _ => by simp [lcpLen]
  | _ :: _, [] => by simp [lcpLen]
  | a :: as, b :: bs => by
    simp only [lcpLen, List.length_cons]
    split
    · exact Nat.succ_le_succ (lcpLen_le_left as bs)
    · exact Nat.zero_le _

theorem lcpLen_le_right {α : Type} [DecidableEq α] :
    ∀ (as bs : List α), lcpLen as bs ≤ bs.length
  | [], _ => by simp [lcpLen]
  | _ :: _, [] => by simp [lcpLen]
  | a :: as, b :: bs => by
    simp only [lcpLen, List.length_cons]
    split
    · exact Nat.succ_le_succ (lcpLen_le_right as bs)
    · exact Nat.zero_le _

theorem take_lcpLen_eq {α : Type} [DecidableEq α] :
    ∀ (as bs : List α), as.take (lcpLen as bs) = bs.take (lcpLen as bs)
  | [], _ => by simp [lcpLen]
  | _ :: _, [] => by simp [lcpLen]
  | a :: as, b :: bs => by
    simp only [lcpLen]
    split
    · rename_i hab
      simp [List.take_succ_cons, hab, take_lcpLen_eq as bs]
    · simp

theorem lcsLen_le_left {α : Type} [DecidableEq α] (as bs : List α) :
    lcsLen as bs ≤ as.length := by
  simpa [lcsLen] using lcpLen_le_left as.reverse bs.reverse

theorem lcsLen_le_right {α : Type} [DecidableEq α] (as bs : List α) :
    lcsLen as bs ≤ bs.length := by
  simpa [lcsLen] using lcpLen_le_right as.reverse bs.reverse

theorem drop_lcsLen_eq {α : Type} [DecidableEq α] (as bs : List α) :
    as.drop (as.length - lcsLen as bs) = bs.drop (bs.length - lcsLen as bs) := by
  have h := take_lcpLen_eq as.reverse bs.reverse
  have h2 : (as.reverse.take (lcsLen as bs)).reverse
      = (bs.reverse.take (lcsLen as bs)).reverse := by
    simpa [lcsLen] using congrArg List.reverse h
  rw [← List.rtake_eq_reverse_take_reverse, ← List.rtake_eq_reverse_take_reverse] at h2
  simpa [List.rtake] using h2

theorem drop_add_of_drop_eq {α : Type} {A B : List α} {a b : Nat}
    (h : A.drop a = B.drop b) (k : Nat) : A.drop (a + k) = B.drop (b + k) := by
  rw [← List.drop_drop, ← List.drop_drop, h]

/-! ### Correctness of the widened diff replace -/

/--
Key diff lemma: with `start` the forward diff position and `(endA, endB)`
the backward diff positions of new content `A` against inner content `B`,
the widened offsets are well-formed bounds and replacing `[start, endB2)`
in `B` by `A`'s slice `[start, endA2)` reconstructs `A` exactly.
-/
theorem widenEnds_replace_eq {α : Type} [DecidableEq α]
    (A B : List α) (p endA endB endA2 endB2 : Nat)
    (hp : p = lcpLen A B)
    (hA : endA = A.length - lcsLen A B) (hB : endB = B.length - lcsLen A B)
    (hW : (endA2, endB2) = widenEnds p endA endB) :
    p ≤ endA2 ∧ p ≤ endB2 ∧ endA2 ≤ A.length ∧ endB2 ≤ B.length ∧
      B.take p ++ ((A.drop p).take (endA2 - p) ++ B.drop endB2) = A := by
  have hpA : p ≤ A.length := hp ▸ lcpLen_le_left A B
  have hpB : p ≤ B.length := hp ▸ lcpLen_le_right A B
  have hsA : lcsLen A B ≤ A.length := lcsLen_le_left A B
  have hsB : lcsLen A B ≤ B.length := lcsLen_le_right A B
  have htake : A.take p = B.take p := hp ▸ take_lcpLen_eq A B
  have hdrop : A.drop endA = B.drop endB := by
    rw [hA, hB]; exact drop_lcsLen_eq A B
  unfold widenEnds at hW
  by_cases hover : min endA endB < p
  · rw [if_pos hover] at hW
    have hA2 : endA2 = endA + (p - min endA endB) := by
      have := congrArg Prod.fst hW; simpa using this
    have hB2 : endB2 = endB + (p - min endA endB) := by
      have := congrArg Prod.snd hW; simpa using this
    rcases Nat.le_total endA endB with hle | hle
    · rw [Nat.min_eq_left hle] at hover hA2 hB2
      refine ⟨by omega, by omega, by omega, by omega, ?_⟩
      have hd : A.drop (endA + (p - endA)) = B.drop (endB + (p - endA)) :=
        drop_add_of_drop_eq hdrop (p - endA)
      have hdd : B.drop endB2 = A.drop p := by
        rw [hB2, ← hd]; congr 1; omega
      have h0 : endA2 - p = 0 := by omega
      rw [h0, List.take_zero, List.nil_append, hdd, ← htake,
        List.take_append_drop]
    · rw [Nat.min_eq_right hle] at hover hA2 hB2
      refine ⟨by omega, by omega, by omega, by omega, ?_⟩
      have hd : A.drop (endA + (p - endB)) = B.drop (endB + (p - endB)) :=
        drop_add_of_drop_eq hdrop (p - endB)
      have hdd : B.drop endB2 = (A.drop p).drop (endA2 - p) := by
        rw [List.drop_drop, show p + (endA2 - p) = endA + (p - endB) by omega,
          hd, hB2]
      rw [hdd, List.take_append_drop, ← htake, List.take_append_drop]
  · rw [if_neg hover] at hW
    have hA2 : endA2 = endA := by
      have := congrArg Prod.fst hW; simpa using this
    have hB2 : endB2 = endB := by
      have := congrArg Prod.snd hW; simpa using this
    refine ⟨by omega, by omega, by omega, by omega, ?_⟩
    have hdd : B.drop endB2 = (A.drop p).drop (endA2 - p) := by
      rw [List.drop_drop, show p + (endA2 - p) = endA by omega, hdrop, hB2]
    rw [hdd, List.take_append_drop, ← htake, List.take_append_drop]

theorem findDiffStart_eq_none {α : Type} [DecidableEq α] {A B : List α}
    (h : findDiffStart A B = none) : A = B := by
  unfold findDiffStart at h
  split at h
  · assumption
  · simp at h

theorem findDiffStart_eq_some {α : Type} [DecidableEq α] {A B : List α} {p : Nat}
    (h : findDiffStart A B = some p) : A ≠ B ∧ p = lcpLen A B := by
  unfold findDiffStart at h
  split at h
  · simp at h
  · exact ⟨by assumption, (Option.some.inj h).symm⟩

theorem findDiffEnd_of_ne {α : Type} [DecidableEq α] {A B : List α} (h : A ≠ B) :
    findDiffEnd A B = some (A.length - lcsLen A B, B.length - lcsLen A B) := by
  unfold findDiffEnd
  rw [if_neg h]

theorem findDiffEnd_eq_some {α : Type} [DecidableEq α] {A B : List α}
    {pr : Nat × Nat} (h : findDiffEnd A B = some pr) :
    A ≠ B ∧ pr = (A.length - lcsLen A B, B.length - lcsLen A B) := by
  unfold findDiffEnd at h
  split at h
  · simp at h
  · exact ⟨by assumption, (Option.some.inj h).symm⟩

/-! ### Remapping steps into the outer document -/

/-- A step that applies inside the inner document, remapped through the
offset of the inner content's start, applies to the outer document and
edits exactly the corresponding region. -/
theorem applyStep_mapOffset {α : Type} (P S : List (Tok α)) (d d2 : List α)
    (st : Step α) (h : applyStep d st = some d2) :
    applyStep (P ++ d.map Tok.txt ++ S) (st.mapOffset P.length) =
      some (P ++ d2.map Tok.txt ++ S) := by
  unfold applyStep at h ⊢
  split at h
  · rename_i hc
    obtain ⟨hc1, hc2⟩ := hc
    injection h with h
    subst h
    simp only [Step.mapOffset]
    rw [if_pos (by simp only [List.length_append, List.length_map]; omega)]
    have e1 : (P ++ d.map Tok.txt ++ S).take (st.sFrom + P.length)
        = P ++ ((d.map Tok.txt).take st.sFrom) := by
      rw [List.append_assoc, Nat.add_comm st.sFrom P.length, List.take_append,
        List.take_append_of_le_length (by simp only [List.length_map]; omega)]
    have e2 : (P ++ d.map Tok.txt ++ S).drop (st.sTo + P.length)
        = (d.map Tok.txt).drop st.sTo ++ S := by
      rw [List.append_assoc, Nat.add_comm st.sTo P.length, List.drop_append,
        List.drop_append_eq_append_drop,
        Nat.sub_eq_zero_of_le (by simp only [List.length_map]; omega),
        List.drop_zero]
    rw [e1, e2]
    simp [List.append_assoc]
  · simp at h

/-- `applyStep_mapOffset` lifted to a whole list of steps. -/
theorem applySteps_mapOffset {α : Type} (P S : List (Tok α)) :
    ∀ (steps : List (Step α)) (d d2 : List α),
      applySteps d steps = some d2 →
      applySteps (P ++ d.map Tok.txt ++ S)
          (steps.map (fun st => st.mapOffset P.length)) =
        some (P ++ d2.map Tok.txt ++ S)
  | [], d, d2, h => by
    simp only [applySteps] at h
    injection h with h
    subst h
    simp [applySteps]
  | st :: rest, d, d2, h => by
    simp only [applySteps] at h
    cases happ : applyStep d st with
    | none => rw [happ] at h; simp at h
    | some dm =>
      rw [happ] at h
      simp only [Option.some_bind] at h
      simp only [List.map_cons, applySteps, applyStep_mapOffset P S d dm st happ,
        Option.some_bind]
      exact applySteps_mapOffset P S rest dm d2 h

/-! ### Characterization of `dispatchInner` and `update` -/

/-- An untagged inner transaction updates the inner state and replays its
steps, shifted by `getPos() + 1`, on the outer document: the liquid node's
content region is rewritten to the new inner document, and the outer
dispatch happens exactly when the outer transaction has at least one step
(the `docChanged` flag). -/
theorem dispatchInner_not_fromOutside_eq {α : Type} (sys : Sys α) (tr : Tr α)
    (before after : List (Tok α)) (d2 : List α)
    (hwf : sys.outerDoc =
      (before ++ [Tok.nOpen]) ++ sys.innerDoc.map Tok.txt ++ (Tok.nClose :: after))
    (hpos : sys.pos = before.length)
    (htag : tr.fromOutside = false)
    (happ : applySteps sys.innerDoc tr.steps = some d2) :
    dispatchInner sys tr = some
      ({ sys with
          innerDoc := d2
          outerDoc :=
            (before ++ [Tok.nOpen]) ++ d2.map Tok.txt ++ (Tok.nClose :: after) },
        if tr.steps.isEmpty then none
        else some (tr.steps.map (fun st => st.mapOffset (sys.pos + 1)))) := by
  have hP : (before ++ [Tok.nOpen]).length = sys.pos + 1 := by
    simp [hpos]
  have houter := applySteps_mapOffset (before ++ [Tok.nOpen]) (Tok.nClose :: after)
    tr.steps sys.innerDoc d2 happ
  rw [hP, ← hwf] at houter
  simp only [dispatchInner, happ, htag, Option.some_bind, Option.bind_eq_bind,
    Bool.false_eq_true, if_false, houter]
  by_cases hempty : tr.steps.isEmpty
  · have hnil : tr.steps = [] := List.isEmpty_iff.mp hempty
    have hd2 : d2 = sys.innerDoc := by
      rw [hnil] at happ
      simpa [applySteps] using happ.symm
    simp only [hnil, List.map_nil, List.isEmpty_nil, if_true, pure]
    subst hd2
    rw [← hwf]
  · have hne : ¬ (tr.steps.map (fun st => st.mapOffset (sys.pos + 1))).isEmpty := by
      simp only [List.isEmpty_iff, List.map_eq_nil_iff]
      simpa [List.isEmpty_iff] using hempty
    rw [if_neg hne, if_neg hempty]
    rfl

/-- A transaction tagged `fromOutside` only updates the inner state: the
outer transaction is never built and the outer dispatch is never invoked. -/
theorem dispatchInner_fromOutside_eq {α : Type} (sys : Sys α) (tr : Tr α)
    (h : tr.fromOutside = true) :
    dispatchInner sys tr =
      (applySteps sys.innerDoc tr.steps).map
        (fun d => ({ sys with innerDoc := d }, none)) := by
  cases happ : applySteps sys.innerDoc tr.steps <;>
    simp [dispatchInner, happ, h]

/-- `update` refuses a node whose markup differs, before any mutation. -/
theorem update_markup_mismatch {α : Type} [DecidableEq α]
    (sys : Sys α) (n : PMNode α) (h : n.sameMarkup sys.node = false) :
    update sys n = some (false, sys) := by
  unfold update
  rw [if_pos (by simp [h])]

/-- On markup-compatible nodes, `update` rebinds to the new node, syncs the
inner document to the new node's content, and reports success; nothing else
in the controller state moves. -/
theorem update_sameMarkup_sync {α : Type} [DecidableEq α]
    (sys : Sys α) (n : PMNode α) (h : n.sameMarkup sys.node = true) :
    update sys n = some (true, { sys with node := n, innerDoc := n.content }) := by
  unfold update
  rw [if_neg (by simp [h])]
  cases hd : findDiffStart n.content sys.innerDoc with
  | none =>
    have hAB := findDiffStart_eq_none hd
    rw [hAB]
  | some start =>
    obtain ⟨hne, hp⟩ := findDiffStart_eq_some hd
    dsimp only
    rw [findDiffEnd_of_ne hne]
    dsimp only
    obtain ⟨h1, h2, h3, h4, heq⟩ :=
      widenEnds_replace_eq n.content sys.innerDoc start
        (n.content.length - lcsLen n.content sys.innerDoc)
        (sys.innerDoc.length - lcsLen n.content sys.innerDoc)
        (widenEnds start (n.content.length - lcsLen n.content sys.innerDoc)
          (sys.innerDoc.length - lcsLen n.content sys.innerDoc)).1
        (widenEnds start (n.content.length - lcsLen n.content sys.innerDoc)
          (sys.innerDoc.length - lcsLen n.content sys.innerDoc)).2
        hp rfl rfl rfl
    rw [dispatchInner_fromOutside_eq _ _ rfl]
    unfold trReplace
    split
    · rename_i hz
      exfalso
      apply hne
      simp only [PMNode.pieceOf] at hz
      rw [hz.2, List.nil_append, ← hz.1, List.take_append_drop] at heq
      exact heq.symm
    · have happ : applySteps sys.innerDoc
          [⟨start,
            (widenEnds start (n.content.length - lcsLen n.content sys.innerDoc)
              (sys.innerDoc.length - lcsLen n.content sys.innerDoc)).2,
            n.pieceOf start
              (widenEnds start (n.content.length - lcsLen n.content sys.innerDoc)
                (sys.innerDoc.length - lcsLen n.content sys.innerDoc)).1⟩]
          = some n.content := by
        simp only [applySteps, applyStep, PMNode.pieceOf]
        rw [if_pos ⟨h2, h4⟩]
        simp only [Option.bind_eq_bind, Option.some_bind]
        rw [List.append_assoc, heq]
      rw [happ]
      rfl

/-! ### Claims -/

/-- C1: for every compatible new node (same markup as the bound node),
after `update(node)` completes the inner editor's document content equals
the new node's content exactly — whatever sequence of outer edits produced
the new content and whatever the inner document held before. -/
theorem c1_update_content_sync {α : Type} [DecidableEq α]
    (sys : Sys α) (n : PMNode α) (h : n.sameMarkup sys.node = true) :
    ∃ sys2, update sys n = some (true, sys2) ∧ sys2.innerDoc = n.content :=
  ⟨_, update_sameMarkup_sync sys n h, rfl⟩

theorem c1_update_content_sync_witness :
    (PMNode.sameMarkup ⟨exM, ['a', 'b', 'a']⟩ exSys.node = true) ∧
      ∃ sys2, update exSys ⟨exM, ['a', 'b', 'a']⟩ = some (true, sys2) ∧
        sys2.innerDoc = ['a', 'b', 'a'] :=
  ⟨by decide, c1_update_content_sync exSys ⟨exM, ['a', 'b', 'a']⟩ (by decide)⟩

/-- C2: every transaction carrying the `fromOutside` meta tag updates the
inner state but never invokes the outer editor's dispatch — no outer
transaction is built (the second component is always `none`) and nothing
but the inner document changes. -/
theorem c2_fromOutside_never_dispatches {α : Type} (sys : Sys α) (tr : Tr α)
    (h : tr.fromOutside = true) :
    dispatchInner sys tr =
      (applySteps sys.innerDoc tr.steps).map
        (fun d => ({ sys with innerDoc := d }, none)) :=
  dispatchInner_fromOutside_eq sys tr h

theorem c2_fromOutside_never_dispatches_witness :
    exTrOutside.fromOutside = true ∧
      dispatchInner exSys exTrOutside =
        (applySteps exSys.innerDoc exTrOutside.steps).map
          (fun d => ({ exSys with innerDoc := d }, none)) :=
  ⟨rfl, c2_fromOutside_never_dispatches exSys exTrOutside rfl⟩

/-- C3 (amended): an untagged inner transaction has each of its steps
remapped through the offset mapping anchored at the node's outer position
plus one, appended to one outer transaction in the order produced, and the
outer transaction is dispatched if and only if it contains at least one
step (the framework's `docChanged` flag, `steps.length > 0`); the outer
document after dispatch carries each inner edit at outer position = inner
position + node's outer start + 1, i.e. the node's content region now
holds the new inner document. -/
theorem c3_inner_edit_propagation {α : Type} (sys : Sys α) (tr : Tr α)
    (before after : List (Tok α)) (d2 : List α)
    (hwf : sys.outerDoc =
      (before ++ [Tok.nOpen]) ++ sys.innerDoc.map Tok.txt ++ (Tok.nClose :: after))
    (hpos : sys.pos = before.length)
    (htag : tr.fromOutside = false)
    (happ : applySteps sys.innerDoc tr.steps = some d2) :
    dispatchInner sys tr = some
      ({ sys with
          innerDoc := d2
          outerDoc :=
            (before ++ [Tok.nOpen]) ++ d2.map Tok.txt ++ (Tok.nClose :: after) },
        if tr.steps.isEmpty then none
        else some (tr.steps.map (fun st => st.mapOffset (sys.pos + 1)))) :=
  dispatchInner_not_fromOutside_eq sys tr before after d2 hwf hpos htag happ

theorem c3_inner_edit_propagation_witness :
    (exSys.outerDoc = ([Tok.bOpen] ++ [Tok.nOpen]) ++ exSys.innerDoc.map Tok.txt
        ++ (Tok.nClose :: [Tok.bClose])) ∧
      exSys.pos = ([Tok.bOpen] : List (Tok Char)).length ∧
      exTrInner.fromOutside = false ∧
      applySteps exSys.innerDoc exTrInner.steps = some ['b'] ∧
      dispatchInner exSys exTrInner = some
        ({ exSys with
            innerDoc := ['b']
            outerDoc := ([Tok.bOpen] ++ [Tok.nOpen]) ++ List.map Tok.txt ['b']
              ++ (Tok.nClose :: [Tok.bClose]) },
          if exTrInner.steps.isEmpty then none
          else some (exTrInner.steps.map (fun st => st.mapOffset (exSys.pos + 1)))) :=
  ⟨by decide, by decide, rfl, by decide,
   c3_inner_edit_propagation exSys exTrInner [Tok.bOpen] [Tok.bClose] ['b']
     (by decide) (by decide) rfl (by decide)⟩

/-- C3 counterexample: the untagged transaction `exTrId` has a single step
replacing a character with itself.  `dispatchInner` invokes the outer
dispatch (the dispatched-steps component is `some …`) although the outer
document does not change — the state returned is exactly the input state.
This refutes "dispatches the outer transaction if and only if it changes
the outer document": the source tests `outerTr.docChanged`, which is the
flag `steps.length > 0`, not a comparison of documents. -/
theorem c3_dispatch_counterexample :
    exTrId.fromOutside = false ∧
      dispatchInner exSys exTrId =
        some (exSys, some [⟨2, 3, [Tok.txt 'a']⟩]) ∧
      Option.elim (dispatchInner exSys exTrId) False
        (fun r => r.1.outerDoc = exSys.outerDoc ∧ r.2 ≠ none) := by
  have hEq : dispatchInner exSys exTrId =
      some (exSys, some [⟨2, 3, [Tok.txt 'a']⟩]) := by decide
  refine ⟨rfl, hEq, ?_⟩
  rw [hEq]
  exact ⟨rfl, by decide⟩

/-- C4: `update(node)` returns `false` exactly when the new node's markup
differs from the bound node's; on compatible markup it rebinds to the new
node and returns `true`, even when there is no content difference. -/
theorem c4_update_return_value {α : Type} [DecidableEq α]
    (sys : Sys α) (n : PMNode α) :
    (n.sameMarkup sys.node = false → update sys n = some (false, sys)) ∧
      (n.sameMarkup sys.node = true →
        update sys n =
          some (true, { sys with node := n, innerDoc := n.content })) :=
  ⟨fun h => update_markup_mismatch sys n h,
   fun h => update_sameMarkup_sync sys n h⟩

theorem c4_update_return_value_witness :
    (PMNode.sameMarkup ⟨⟨"image", []⟩, []⟩ exSys.node = false ∧
      update exSys ⟨⟨"image", []⟩, []⟩ = some (false, exSys)) ∧
      (PMNode.sameMarkup ⟨exM, ['a', 'a']⟩ exSys.node = true ∧
        update exSys ⟨exM, ['a', 'a']⟩ =
          some (true,
            { exSys with node := ⟨exM, ['a', 'a']⟩, innerDoc := ['a', 'a'] })) :=
  ⟨⟨by decide, (c4_update_return_value exSys ⟨⟨"image", []⟩, []⟩).1 (by decide)⟩,
   ⟨by decide, (c4_update_return_value exSys ⟨exM, ['a', 'a']⟩).2 (by decide)⟩⟩

/-- C10: a failed `update` is atomic — on a markup mismatch it returns
`false` with the whole controller state (bound node, inner document and
selection, outer document and selection) unchanged. -/
theorem c10_update_fail_atomic {α : Type} [DecidableEq α]
    (sys : Sys α) (n : PMNode α) (h : n.sameMarkup sys.node = false) :
    update sys n = some (false, sys) :=
  update_markup_mismatch sys n h

theorem c10_update_fail_atomic_witness :
    PMNode.sameMarkup ⟨⟨"liquid", [("x", "y")]⟩, ['a']⟩ exSys.node = false ∧
      update exSys ⟨⟨"liquid", [("x", "y")]⟩, ['a']⟩ = some (false, exSys) :=
  ⟨by decide, c10_update_fail_atomic exSys ⟨⟨"liquid", [("x", "y")]⟩, ['a']⟩ (by decide)⟩

/-- C5: with a collapsed inner selection on the matching edge,
`maybeEscape(dir)` reports handled and moves the outer selection to a
collapsed cursor at the node's outer start (`dir = -1`, selection start 0)
or at outer start + the node's total size (`dir = +1`, selection end =
`innerLength` = total size minus 2), focusing the outer surface. -/
theorem c5_escape_boundary {α : Type} (sys : Sys α) (dir : Int)
    (hcaret : sys.innerSel.anchor = sys.innerSel.head) :
    (dir = -1 → sys.innerSel.selFrom = 0 →
      maybeEscape sys dir =
        (true, { sys with outerSel := ⟨sys.pos, sys.pos⟩, outerFocused := true })) ∧
      (dir = 1 → sys.innerSel.selTo = sys.length →
        maybeEscape sys dir =
          (true,
            { sys with
                outerSel := ⟨sys.pos + sys.node.nodeSize, sys.pos + sys.node.nodeSize⟩
                outerFocused := true })) := by
  constructor
  · intro hdir hedge
    subst hdir
    simp [maybeEscape, Sel.isEmpty, hcaret, hedge]
  · intro hdir hedge
    subst hdir
    simp [maybeEscape, Sel.isEmpty, hcaret, hedge]

theorem c5_escape_boundary_witness :
    (exSys.innerSel.anchor = exSys.innerSel.head ∧ exSys.innerSel.selFrom = 0 ∧
      maybeEscape exSys (-1) =
        (true, { exSys with outerSel := ⟨exSys.pos, exSys.pos⟩, outerFocused := true })) ∧
      (exSysEnd.innerSel.anchor = exSysEnd.innerSel.head ∧
        exSysEnd.innerSel.selTo = exSysEnd.length ∧
        maybeEscape exSysEnd 1 =
          (true,
            { exSysEnd with
                outerSel := ⟨exSysEnd.pos + exSysEnd.node.nodeSize,
                  exSysEnd.pos + exSysEnd.node.nodeSize⟩
                outerFocused := true })) :=
  ⟨⟨rfl, by decide,
    (c5_escape_boundary exSys (-1) rfl).1 rfl (by decide)⟩,
   ⟨rfl, by decide,
    (c5_escape_boundary exSysEnd 1 rfl).2 rfl (by decide)⟩⟩

/-- C6: when the inner selection is a range, or a caret not on the edge
matching the direction, `maybeEscape(dir)` does nothing at all and reports
not handled. -/
theorem c6_no_escape {α : Type} (sys : Sys α) (dir : Int)
    (h : sys.innerSel.anchor ≠ sys.innerSel.head ∨
      (if dir < 0 then sys.innerSel.selFrom ≠ 0
       else sys.innerSel.selTo ≠ sys.length)) :
    maybeEscape sys dir = (false, sys) := by
  rcases h with h | h
  · simp [maybeEscape, Sel.isEmpty, h]
  · by_cases hd : dir < 0
    · rw [if_pos hd] at h
      simp [maybeEscape, Sel.isEmpty, hd, h]
    · rw [if_neg hd] at h
      simp [maybeEscape, Sel.isEmpty, hd, h]

theorem c6_no_escape_witness :
    (exSysRange.innerSel.anchor ≠ exSysRange.innerSel.head ∨
      (if (-1 : Int) < 0 then exSysRange.innerSel.selFrom ≠ 0
       else exSysRange.innerSel.selTo ≠ exSysRange.length)) ∧
      maybeEscape exSysRange (-1) = (false, exSysRange) :=
  ⟨Or.inl (by decide), c6_no_escape exSysRange (-1) (Or.inl (by decide))⟩

/-- C7: `maybeRemove()` acts exactly when `this.length` is 0: it then
dispatches an outer transaction selecting the node's full range
`[outer start, outer start + total size)`, deleting it with
scroll-into-view, and reports handled; under the content-sync invariant
the node's tokens disappear from the outer document.  With non-empty
content it does nothing and reports not handled. -/
theorem c7_remove_when_empty {α : Type} (sys : Sys α) (before after : List (Tok α)) :
    (sys.length = 0 →
      maybeRemove sys =
        (true,
          { sys with
              outerDoc := sys.outerDoc.take sys.pos ++
                sys.outerDoc.drop (sys.pos + sys.node.nodeSize)
              outerSel := ⟨sys.pos, sys.pos⟩ },
          some ⟨some (sys.pos, sys.pos + sys.node.nodeSize),
            some (sys.pos, sys.pos + sys.node.nodeSize), true⟩)) ∧
      (sys.length ≠ 0 → maybeRemove sys = (false, sys, none)) ∧
      (sys.length = 0 →
        sys.outerDoc =
          (before ++ [Tok.nOpen]) ++ sys.innerDoc.map Tok.txt ++ (Tok.nClose :: after) →
        sys.pos = before.length →
        sys.innerDoc = sys.node.content →
        (maybeRemove sys).2.1.outerDoc = before ++ after) := by
  refine ⟨fun h => by simp [maybeRemove, h], fun h => by simp [maybeRemove, h], ?_⟩
  intro h hwf hpos hsync
  have hc : sys.node.content = [] := by
    simp only [Sys.length, PMNode.nodeSize, Nat.add_sub_cancel] at h
    exact List.length_eq_zero.mp h
  have hin : sys.innerDoc = [] := by rw [hsync, hc]
  simp only [maybeRemove, h, if_true, if_pos]
  rw [hwf, hin, hpos, PMNode.nodeSize, hc]
  simp [List.append_assoc, List.take_left', List.drop_append]

theorem c7_remove_when_empty_witness :
    (exSysEmpty.length = 0 ∧
      maybeRemove exSysEmpty =
        (true,
          { exSysEmpty with
              outerDoc := exSysEmpty.outerDoc.take exSysEmpty.pos ++
                exSysEmpty.outerDoc.drop (exSysEmpty.pos + exSysEmpty.node.nodeSize)
              outerSel := ⟨exSysEmpty.pos, exSysEmpty.pos⟩ },
          some ⟨some (exSysEmpty.pos, exSysEmpty.pos + exSysEmpty.node.nodeSize),
            some (exSysEmpty.pos, exSysEmpty.pos + exSysEmpty.node.nodeSize), true⟩)) ∧
      (exSys.length ≠ 0 ∧ maybeRemove exSys = (false, exSys, none)) ∧
      (maybeRemove exSysEmpty).2.1.outerDoc = [Tok.bOpen] ++ [Tok.bClose] :=
  ⟨⟨by decide,
    (c7_remove_when_empty exSysEmpty [Tok.bOpen] [Tok.bClose]).1 (by decide)⟩,
   ⟨by decide,
    (c7_remove_when_empty exSys [Tok.bOpen] [Tok.bClose]).2.1 (by decide)⟩,
   (c7_remove_when_empty exSysEmpty [Tok.bOpen] [Tok.bClose]).2.2
     (by decide) (by decide) (by decide) (by decide)⟩

/-- C8: in `update`'s diff computation, when the forward diff start
exceeds `min(endA, endB)` both end offsets are widened by exactly
`overlap = start - min(endA, endB)`; afterwards `start ≤ endA` and
`start ≤ endB` hold, and replacing `[start, endB)` of the inner content
by the new content's slice `[start, endA)` yields exactly the new
content. -/
theorem c8_overlap_correction {α : Type} [DecidableEq α]
    (A B : List α) (start endA endB : Nat)
    (hs : findDiffStart A B = some start)
    (he : findDiffEnd A B = some (endA, endB))
    (hover : min endA endB < start) :
    (widenEnds start endA endB).1 = endA + (start - min endA endB) ∧
      (widenEnds start endA endB).2 = endB + (start - min endA endB) ∧
      start ≤ (widenEnds start endA endB).1 ∧
      start ≤ (widenEnds start endA endB).2 ∧
      B.take start ++ (A.drop start).take ((widenEnds start endA endB).1 - start)
        ++ B.drop (widenEnds start endA endB).2 = A := by
  obtain ⟨hne, hp⟩ := findDiffStart_eq_some hs
  obtain ⟨-, hpr⟩ := findDiffEnd_eq_some he
  have hA : endA = A.length - lcsLen A B := congrArg Prod.fst hpr
  have hB : endB = B.length - lcsLen A B := congrArg Prod.snd hpr
  have main := widenEnds_replace_eq A B start endA endB
    (widenEnds start endA endB).1 (widenEnds start endA endB).2 hp hA hB rfl
  refine ⟨by simp [widenEnds, hover], by simp [widenEnds, hover],
    main.1, main.2.1, ?_⟩
  rw [List.append_assoc]
  exact main.2.2.2.2

theorem c8_overlap_correction_witness :
    findDiffStart ['a', 'a', 'a'] ['a', 'a'] = some 2 ∧
      findDiffEnd ['a', 'a', 'a'] ['a', 'a'] = some (1, 0) ∧
      min 1 0 < 2 ∧
      ((widenEnds 2 1 0).1 = 1 + (2 - min 1 0) ∧
        (widenEnds 2 1 0).2 = 0 + (2 - min 1 0) ∧
        2 ≤ (widenEnds 2 1 0).1 ∧
        2 ≤ (widenEnds 2 1 0).2 ∧
        List.take 2 ['a', 'a'] ++
            (List.drop 2 ['a', 'a', 'a']).take ((widenEnds 2 1 0).1 - 2)
          ++ List.drop (widenEnds 2 1 0).2 ['a', 'a'] = ['a', 'a', 'a']) :=
  ⟨by decide, by decide, by decide,
   c8_overlap_correction ['a', 'a', 'a'] ['a', 'a'] 2 1 0
     (by decide) (by decide) (by decide)⟩

/-- C9: the directional arrow command (left/up = side -1, right/down =
side +1) is handled exactly when the outer selection is collapsed and the
node adjacent to the caret in that direction exists, is not text and is
inline; it then sets the outer selection to the one resolved by the
framework's find-nearest-selection from one step further in that
direction, with scroll-into-view.  In every other case it reports not
handled and leaves the state unchanged. -/
theorem c9_arrow_stepover {α : Type}
    (findFrom : List (Tok α) → Int → Int → Option Sel)
    (dir : ArrowDir) (st : OuterState α) :
    ((st.sel.anchor = st.sel.head ∧
        isNearInlineBlock st (arrowSide dir) = true) →
      arrowHandler findFrom dir st =
        (findFrom st.doc ((st.sel.head : Int) + arrowSide dir) (arrowSide dir)).map
          (fun s => (true, { st with sel := s, scrolled := true }))) ∧
      (¬ (st.sel.anchor = st.sel.head ∧
          isNearInlineBlock st (arrowSide dir) = true) →
        arrowHandler findFrom dir st = some (false, st)) := by
  constructor
  · rintro ⟨h1, h2⟩
    unfold arrowHandler
    rw [if_pos ⟨by simp [Sel.isEmpty, h1], h2⟩]
    cases hf : findFrom st.doc ((st.sel.head : Int) + arrowSide dir) (arrowSide dir) <;>
      simp [hf]
  · intro h
    unfold arrowHandler
    rw [if_neg (by simpa [Sel.isEmpty] using h)]

theorem c9_arrow_stepover_witness :
    ((exOuter.sel.anchor = exOuter.sel.head ∧
        isNearInlineBlock exOuter (arrowSide ArrowDir.right) = true) ∧
      arrowHandler exFindFrom ArrowDir.right exOuter =
        (exFindFrom exOuter.doc ((exOuter.sel.head : Int) + arrowSide ArrowDir.right)
            (arrowSide ArrowDir.right)).map
          (fun s => (true, { exOuter with sel := s, scrolled := true }))) ∧
      (¬ (exOuter.sel.anchor = exOuter.sel.head ∧
          isNearInlineBlock exOuter (arrowSide ArrowDir.left) = true) ∧
        arrowHandler exFindFrom ArrowDir.left exOuter = some (false, exOuter)) :=
  ⟨⟨⟨rfl, by decide⟩,
    (c9_arrow_stepover exFindFrom ArrowDir.right exOuter).1 ⟨rfl, by decide⟩⟩,
   ⟨by decide,
    (c9_arrow_stepover exFindFrom ArrowDir.left exOuter).2 (by decide)⟩⟩

end Liquid
